import Mathlib

/-!
Shallow embedding of the medical-condition scoring core of `src/main.py`
(class `MedicalConditionScorer`), together with theorems that check the
natural-language specification against the code.

Modelling conventions:
* Python strings are `List Char`; a file already read into memory is a
  `List (List Char)` of its lines.
* Python floats are modelled as exact rationals `ℚ`; all weights produced
  by the program are two-decimal values on which the arithmetic performed
  (`* 100`, `min`, `+`, `round(_, 1)`) is exact.
* `difflib.SequenceMatcher(None, a, b).ratio()` is embedded faithfully,
  including the `autojunk` popularity filter and the greedy
  longest-matching-block recursion of `get_matching_blocks`.
-/

namespace MedScore

/-- ASCII whitespace, as used by Python `str.strip()` / `str.split()`
on the ASCII range. -/
def isPySpace (c : Char) : Bool :=
  c == ' ' || c == '\t' || c == '\n' || c == '\r' || c == '\x0b' || c == '\x0c'

/-- Python `str.strip()`: drop leading and trailing whitespace. -/
def pyStrip (s : List Char) : List Char :=
  ((s.dropWhile isPySpace).reverse.dropWhile isPySpace).reverse

/-- One step of Python `str.split()` (no separator argument): fold state is
(finished words, current word). -/
def pySplitStep (st : List (List Char) × List Char) (c : Char) :
    List (List Char) × List Char :=
  if isPySpace c then
    (if st.2 = [] then st else (st.1 ++ [st.2], []))
  else (st.1, st.2 ++ [c])

/-- Python `str.split()`: split on whitespace runs, discarding empty words. -/
def pySplit (s : List Char) : List (List Char) :=
  let r := s.foldl pySplitStep ([], [])
  if r.2 = [] then r.1 else r.1 ++ [r.2]

/-- Python `sub in s` substring test. -/
def strIn (sub s : List Char) : Bool :=
  (List.range (s.length + 1)).any (fun k => sub.isPrefixOf (s.drop k))

/-- Python `str.lower()` (ASCII range). -/
def pyLower (s : List Char) : List Char :=
  s.map Char.toLower

def isAsciiDigit (c : Char) : Bool :=
  '0' ≤ c && c ≤ '9'

/-- Numeric value of a list of ASCII digits. -/
def digitsVal (ds : List Char) : ℕ :=
  ds.foldl (fun acc c => 10 * acc + (c.toNat - 48)) 0

/-- Tail of a Python integer literal body: digits, with single underscores
allowed between digits. -/
def udAux : List Char → Bool
  | [] => true
  | '_' :: rest =>
    match rest with
    | [] => false
    | d :: rest2 => isAsciiDigit d && udAux rest2
  | c :: rest => isAsciiDigit c && udAux rest

/-- A valid Python integer-literal digit string (nonempty, underscores only
singly between digits). -/
def underscoreDigits : List Char → Bool
  | [] => false
  | c :: rest => isAsciiDigit c && udAux rest

/-- Python `int(s)` on a string: strip whitespace, optional sign, digits with
optional single underscores; `none` when a `ValueError` would be raised. -/
def pyParseInt (s : List Char) : Option ℤ :=
  match pyStrip s with
  | '+' :: rest =>
    if underscoreDigits rest then
      some (digitsVal (rest.filter (fun c => c != '_')) : ℤ)
    else none
  | '-' :: rest =>
    if underscoreDigits rest then
      some (-(digitsVal (rest.filter (fun c => c != '_')) : ℤ))
    else none
  | rest =>
    if underscoreDigits rest then
      some (digitsVal (rest.filter (fun c => c != '_')) : ℤ)
    else none

/-- The fixed HCC-category → risk-weight table of
`MedicalConditionScorer._get_raf_score`, in source order. -/
def rafMappingList : List (ℤ × ℚ) :=
  [(1, 0.80), (2, 0.65), (6, 0.45), (8, 0.25), (9, 0.35),
   (10, 0.40), (11, 0.30), (12, 0.28), (17, 0.60), (18, 0.55),
   (19, 0.38), (20, 0.42), (21, 0.32), (22, 0.30), (23, 0.70),
   (29, 0.45), (33, 0.35), (36, 0.40), (37, 0.38), (38, 0.35),
   (39, 0.32), (43, 0.35), (46, 0.48), (47, 0.42), (48, 0.38),
   (52, 0.45), (54, 0.38), (55, 0.35), (56, 0.38), (65, 0.40),
   (72, 0.38), (75, 0.35), (78, 0.32), (85, 0.42), (92, 0.32),
   (93, 0.30), (95, 0.38), (96, 0.35), (98, 0.35), (99, 0.38),
   (100, 0.32), (106, 0.35), (108, 0.38), (109, 0.42), (111, 0.35),
   (112, 0.38), (114, 0.45), (115, 0.40), (127, 0.38), (141, 0.35),
   (155, 0.35), (158, 0.32), (168, 0.28), (182, 0.35), (186, 0.38),
   (202, 0.45), (227, 0.40), (263, 0.35), (280, 0.38), (282, 0.42),
   (283, 0.35), (387, 0.28), (395, 0.38), (454, 0.45)]

/-- Dictionary lookup `raf_mapping.get(hcc_num, 0.1)` without the default. -/
def rafLookup (n : ℤ) : Option ℚ :=
  (rafMappingList.find? (fun p => p.1 == n)).map (fun p => p.2)

/-- `MedicalConditionScorer._get_raf_score`: empty string or unparseable
integer or unmapped category code → default weight `0.1`. -/
def getRafScore (hcc : List Char) : ℚ :=
  if hcc = [] then 0.1
  else
    match pyParseInt hcc with
    | none => 0.1
    | some n => (rafLookup n).getD 0.1

/-- One step of `MedicalConditionScorer._parse_csv_line`: fold state is
(finished fields, current field, inside-quotes flag). -/
def csvStep (st : List (List Char) × List Char × Bool) (c : Char) :
    List (List Char) × List Char × Bool :=
  let (parts, current, inQ) := st
  if c = '"' then (parts, current, !inQ)
  else if c = ',' ∧ inQ = false then (parts ++ [pyStrip current], [], inQ)
  else (parts, current ++ [c], inQ)

/-- `MedicalConditionScorer._parse_csv_line`: quote-toggle field splitter. -/
def parseCsvLine (line : List Char) : List (List Char) :=
  let r := line.foldl csvStep ([], [], false)
  r.1 ++ [pyStrip r.2.1]

/-! ### difflib.SequenceMatcher

Faithful embedding of `SequenceMatcher(None, a, b).ratio()` from the Python
standard library (used by `MedicalConditionScorer._fuzzy_match_score`).
With `isjunk = None` the junk set `bjunk` is empty, so the two
junk-extension loops of `find_longest_match` never run; the `autojunk`
popularity filter (active only when `len(b) >= 200`) is modelled in
`b2jList`. -/

/-- Ascending positions of `c` in `b` (the `b2j` dictionary entry). -/
def positionsOf (b : List Char) (c : Char) : List ℕ :=
  (List.range b.length).filter (fun j => decide (b.get? j = some c))

/-- `autojunk`: an element is popular when `len(b) >= 200` and it occurs more
than `len(b) // 100 + 1` times; popular elements are removed from `b2j`. -/
def isPopularB (b : List Char) (c : Char) : Bool :=
  decide (200 ≤ b.length) && decide (b.length / 100 + 1 < b.count c)

/-- The `b2j` entry consulted by `find_longest_match`. -/
def b2jList (b : List Char) (c : Char) : List ℕ :=
  if isPopularB b c then [] else positionsOf b c

/-- First value bound to key `k` in an association list, defaulting to `d`
(Python `dict.get(k, d)`). -/
def lookupD (m : List (ℕ × ℕ)) (k d : ℕ) : ℕ :=
  match m.find? (fun p => p.1 == k) with
  | some p => p.2
  | none => d

/-- Inner loop of `find_longest_match` for one `j`: the fold state is
`(newj2len, (besti, bestj, bestsize))`; lookups use the previous row
`j2len`. -/
def flmInner (j2len : List (ℕ × ℕ)) (i : ℕ)
    (acc : List (ℕ × ℕ) × ℕ × ℕ × ℕ) (j : ℕ) :
    List (ℕ × ℕ) × ℕ × ℕ × ℕ :=
  let (newj2len, besti, bestj, bestsize) := acc
  let k := (if j = 0 then 0 else lookupD j2len (j - 1) 0) + 1
  let best :=
    if bestsize < k then (i + 1 - k, j + 1 - k, k) else (besti, bestj, bestsize)
  ((j, k) :: newj2len, best)

/-- One row (one value of `i`) of the `find_longest_match` dynamic program. -/
def flmRow (a b : List Char) (blo bhi : ℕ)
    (st : List (ℕ × ℕ) × ℕ × ℕ × ℕ) (i : ℕ) :
    List (ℕ × ℕ) × ℕ × ℕ × ℕ :=
  let js := (b2jList b (a.getD i 'a')).filter
    (fun j => decide (blo ≤ j) && decide (j < bhi))
  let r := js.foldl (flmInner st.1 i) ([], st.2)
  (r.1, r.2)

/-- The `while ... besti > alo ...` extension loop of `find_longest_match`
(`bjunk` is empty, so the non-junk condition always holds). -/
def extendLeftFLM (a b : List Char) (alo blo : ℕ) :
    ℕ → ℕ × ℕ × ℕ → ℕ × ℕ × ℕ
  | 0, st => st
  | fuel + 1, (besti, bestj, bestsize) =>
    if alo < besti && blo < bestj &&
        (a.getD (besti - 1) 'a' == b.getD (bestj - 1) 'b') then
      extendLeftFLM a b alo blo fuel (besti - 1, bestj - 1, bestsize + 1)
    else (besti, bestj, bestsize)

/-- The `while besti+bestsize < ahi ...` extension loop of
`find_longest_match`. -/
def extendRightFLM (a b : List Char) (ahi bhi : ℕ) :
    ℕ → ℕ × ℕ × ℕ → ℕ × ℕ × ℕ
  | 0, st => st
  | fuel + 1, (besti, bestj, bestsize) =>
    if besti + bestsize < ahi && bestj + bestsize < bhi &&
        (a.getD (besti + bestsize) 'a' == b.getD (bestj + bestsize) 'b') then
      extendRightFLM a b ahi bhi fuel (besti, bestj, bestsize + 1)
    else (besti, bestj, bestsize)

/-- `SequenceMatcher.find_longest_match(alo, ahi, blo, bhi)`:
returns `(besti, bestj, bestsize)`. -/
def findLongestMatch (a b : List Char) (alo ahi blo bhi : ℕ) : ℕ × ℕ × ℕ :=
  let res := (List.range' alo (ahi - alo)).foldl (flmRow a b blo bhi)
    ([], alo, blo, 0)
  let ext := extendLeftFLM a b alo blo res.2.1 res.2
  extendRightFLM a b ahi bhi ahi ext

/-- Total size of the matching blocks collected by
`SequenceMatcher.get_matching_blocks`, by the same recursion on subranges;
the fuel argument strictly exceeds any possible recursion depth. -/
def matchTotalAux (a b : List Char) :
    ℕ → ℕ → ℕ → ℕ → ℕ → ℕ
  | 0, _, _, _, _ => 0
  | fuel + 1, alo, ahi, blo, bhi =>
    let r := findLongestMatch a b alo ahi blo bhi
    let i := r.1
    let j := r.2.1
    let k := r.2.2
    if k = 0 then 0
    else
      (if alo < i && blo < j then matchTotalAux a b fuel alo i blo j else 0)
        + k +
      (if i + k < ahi && j + k < bhi then
        matchTotalAux a b fuel (i + k) ahi (j + k) bhi else 0)

/-- `SequenceMatcher(None, a, b).ratio()` as an exact rational:
`2 * M / (len(a) + len(b))`, and `1.0` when both sequences are empty. -/
def seqRatio (a b : List Char) : ℚ :=
  if a.length + b.length = 0 then 1
  else
    (2 * (matchTotalAux a b (a.length + b.length + 1) 0 a.length 0 b.length) : ℚ)
      / (a.length + b.length)

/-- `MedicalConditionScorer._fuzzy_match_score`. -/
def fuzzyMatchScore (searchTerm description : List Char) : ℚ :=
  let searchLower := pyLower searchTerm
  let descLower := pyLower description
  if strIn searchLower descLower then 1
  else
    let searchWords := pySplit searchLower
    let descWords := pySplit descLower
    searchWords.foldl
      (fun ms sw => descWords.foldl
        (fun ms2 dw => max ms2 (seqRatio sw dw)) ms) 0

/-- One reference-table entry: `self.conditions[code]` holds the description
and the derived RAF weight. -/
structure CondEntry where
  code : List Char
  description : List Char
  raf_score : ℚ
deriving DecidableEq

/-- Python 3.7 dict assignment `d[k] = v`: replace in place when the key
exists (keeping its position), otherwise append. -/
def dictInsert (tbl : List CondEntry) (e : CondEntry) : List CondEntry :=
  if tbl.any (fun x => x.code == e.code) then
    tbl.map (fun x => if x.code = e.code then e else x)
  else tbl ++ [e]

/-- Processing of one data row inside `MedicalConditionScorer._load_conditions`. -/
def loadRow (tbl : List CondEntry) (line : List Char) : List CondEntry :=
  let parts := parseCsvLine (pyStrip line)
  if 7 < parts.length ∧ parts.getD 0 [] ≠ [] ∧ parts.getD 1 [] ≠ [] then
    let code := pyStrip ((parts.getD 0 []).filter (fun c => c != '"'))
    let desc := pyStrip ((parts.getD 1 []).filter (fun c => c != '"'))
    let hcc := if 6 < parts.length then pyStrip (parts.getD 6 []) else []
    dictInsert tbl ⟨code, desc, getRafScore hcc⟩
  else tbl

/-- `MedicalConditionScorer._load_conditions` over a file already split into
lines: skip the header row, fold the rest. -/
def loadConditions (lines : List (List Char)) : List CondEntry :=
  (lines.drop 1).foldl loadRow []

/-- The scored-and-sorted candidate list built per input name inside
`MedicalConditionScorer.find_condition_by_name`: entries with fuzzy score
`>= 0.75`, as `(raf_score, match_score)` pairs, sorted by match score
descending (Python `list.sort(key=..., reverse=True)` is stable). -/
def scoredSorted (conditions : List CondEntry) (name : List Char) :
    List (ℚ × ℚ) :=
  (conditions.filterMap (fun e =>
      let ms := fuzzyMatchScore name e.description
      if (3 / 4 : ℚ) ≤ ms then some (e.raf_score, ms) else none)).mergeSort
    (fun x y => decide (y.2 ≤ x.2))

/-- `MedicalConditionScorer.find_condition_by_name`, reduced to the data the
caller consumes: the flat list of RAF weights of the top-5 matches of each
input name. -/
def findConditionByName (conditions : List CondEntry)
    (conditionNames : List (List Char)) : List ℚ :=
  conditionNames.flatMap (fun name =>
    ((scoredSorted conditions name).take 5).map (fun m => m.1))

/-- The age-band step function at the top of
`MedicalConditionScorer.calculate_medical_score`. -/
def ageScoreFor (age : ℤ) : ℚ :=
  if age < 30 then 5
  else if age < 45 then 10
  else if age < 60 then 15
  else if age < 75 then 18
  else 20

/-- Python `max` over a nonempty list (the value on `[]` is irrelevant:
the code only calls it under a nonemptiness guard). -/
def listMax (l : List ℚ) : ℚ :=
  l.foldl max (l.headD 0)

/-- Round-half-to-even to an integer (the rounding mode of Python `round`);
`q.num / q.den` is the floor of `q` (`Rat.floor_def`), written out so that
the function evaluates by kernel reduction. -/
def rhe (q : ℚ) : ℤ :=
  let f : ℤ := q.num / (q.den : ℤ)
  let r := q - (f : ℚ)
  if r < 1 / 2 then f
  else if 1 / 2 < r then f + 1
  else if f % 2 = 0 then f else f + 1

/-- Python `round(x, 1)`: round to one decimal place, half to even. -/
def pyRound1 (q : ℚ) : ℚ :=
  (rhe (q * 10) : ℚ) / 10

/-- `MedicalConditionScorer.calculate_medical_score`. -/
def calculateMedicalScore (conditions : List CondEntry)
    (conditionNames : List (List Char)) (age : ℤ) : ℚ :=
  let ageScore := ageScoreFor age
  let matched := findConditionByName conditions conditionNames
  if matched = [] then pyRound1 ageScore
  else
    let highestRaf := listMax matched
    let conditionScore := min (highestRaf * 100) 80
    pyRound1 (ageScore + conditionScore)

/-- Outcome of trying to read the reference resource: present and readable,
absent (`FileNotFoundError`), or present but unreadable (any other
`OSError`, e.g. `PermissionError`). -/
inductive ReadResult where
  | ok (lines : List (List Char))
  | fileNotFound
  | readError
deriving DecidableEq

/-- `MedicalConditionScorer.__init__`: the table is built from the file;
only `FileNotFoundError` is caught (leaving the table empty); any other
read error propagates out of the constructor. -/
def scorerInit : ReadResult → Except Unit (List CondEntry)
  | .ok lines => .ok (loadConditions lines)
  | .fileNotFound => .ok []
  | .readError => .error ()

/-- The module-level `try: scorer = MedicalConditionScorer() except: scorer
= None` wrapper: a propagated constructor error leaves the scorer unset. -/
def moduleScorer (r : ReadResult) : Option (List CondEntry) :=
  match scorerInit r with
  | .ok tbl => some tbl
  | .error _ => none

/-- The one-entry reference table used by the spec's end-to-end example. -/
def tblE11 : List CondEntry :=
  [⟨"E11".data, "Diabetes Mellitus".data, 0.40⟩]

/-- The composite-score combinator of `calculate_medical_score`, factored
over the already-computed matched-weight collection. -/
def scoreOfMatched (age : ℤ) (matched : List ℚ) : ℚ :=
  if matched = [] then pyRound1 (ageScoreFor age)
  else pyRound1 (ageScoreFor age + min (listMax matched * 100) 80)

/-- Modelled from the spec's words for comparison with the code: "the
maximum pairwise token-level similarity ratio between any whitespace-split
word of the input and any whitespace-split word of the description"
(0 when either side has no words). -/
def spec_maxPairRatio (name desc : List Char) : ℚ :=
  ((pySplit (pyLower name)).flatMap (fun sw =>
    (pySplit (pyLower desc)).map (fun dw => seqRatio sw dw))).foldl max 0

/-! ### Lemmas about the rounding function -/

theorem rhe_eq (q : ℚ) :
    rhe q = if q - ⌊q⌋ < 1 / 2 then ⌊q⌋
      else if 1 / 2 < q - ⌊q⌋ then ⌊q⌋ + 1
      else if ⌊q⌋ % 2 = 0 then ⌊q⌋ else ⌊q⌋ + 1 := by
  unfold rhe
  rw [← Rat.floor_def]

theorem floor_le_rhe (q : ℚ) : ⌊q⌋ ≤ rhe q := by
  rw [rhe_eq]; split_ifs <;> omega

theorem rhe_le_floor_add_one (q : ℚ) : rhe q ≤ ⌊q⌋ + 1 := by
  rw [rhe_eq]; split_ifs <;> omega

theorem rhe_mono {x y : ℚ} (h : x ≤ y) : rhe x ≤ rhe y := by
  by_cases hf : (⌊x⌋ : ℤ) = ⌊y⌋
  · rw [rhe_eq, rhe_eq, hf]
    have hxy : x - (⌊y⌋ : ℚ) ≤ y - (⌊y⌋ : ℚ) := by linarith
    split_ifs <;> first | omega | linarith
  · have hlt : ⌊x⌋ < ⌊y⌋ := lt_of_le_of_ne (Int.floor_le_floor h) hf
    calc rhe x ≤ ⌊x⌋ + 1 := rhe_le_floor_add_one x
      _ ≤ ⌊y⌋ := by omega
      _ ≤ rhe y := floor_le_rhe y

theorem rhe_intCast (m : ℤ) : rhe (m : ℚ) = m := by
  rw [rhe_eq]
  have h : ⌊(m : ℚ)⌋ = m := Int.floor_intCast m
  rw [h]
  have : (m : ℚ) - (m : ℚ) < 1 / 2 := by norm_num
  rw [if_pos this]

theorem pyRound1_mono {x y : ℚ} (h : x ≤ y) : pyRound1 x ≤ pyRound1 y := by
  unfold pyRound1
  have h1 : rhe (x * 10) ≤ rhe (y * 10) := rhe_mono (by linarith)
  have h2 : ((rhe (x * 10) : ℚ)) ≤ (rhe (y * 10) : ℚ) := by exact_mod_cast h1
  linarith

theorem pyRound1_intCast (m : ℤ) : pyRound1 (m : ℚ) = m := by
  unfold pyRound1
  have h : (m : ℚ) * 10 = ((m * 10 : ℤ) : ℚ) := by push_cast; ring
  rw [h, rhe_intCast]
  push_cast
  ring

/-! ### Claim theorems: RAF table, constructor, age bands, empty input -/

/-- Claim C1, counterexample: the fixed category-code → weight table of
`_get_raf_score` has 64 entries, not 69. -/
theorem rafMapping_count_ne_69 :
    rafMappingList.length = 64 ∧ rafMappingList.length ≠ 69 := by
  decide

/-- Claim C1, amended: the fixed lookup table contains exactly 64 entries,
with pairwise-distinct integer category codes and weights all in
[0.25, 0.80]; an empty, non-integer, or unmapped category code yields the
default weight 0.1. -/
theorem rafMapping_contents :
    rafMappingList.length = 64 ∧
    (rafMappingList.map Prod.fst).Nodup ∧
    (∀ p ∈ rafMappingList, (1 / 4 : ℚ) ≤ p.2 ∧ p.2 ≤ 4 / 5) ∧
    getRafScore [] = 1 / 10 ∧
    (∀ s, pyParseInt s = none → getRafScore s = 1 / 10) ∧
    (∀ s n, pyParseInt s = some n → rafLookup n = none →
      getRafScore s = 1 / 10) := by
  refine ⟨by decide, by decide, by with_unfolding_all decide,
    by with_unfolding_all decide, ?_, ?_⟩
  · intro s h
    by_cases hs : s = []
    · subst hs; with_unfolding_all decide
    · simp [getRafScore, hs, h]
      norm_num
  · intro s n h1 h2
    by_cases hs : s = []
    · subst hs; with_unfolding_all decide
    · simp [getRafScore, hs, h1, h2]
      norm_num

/-- Witness for `rafMapping_contents`: the non-integer category-code string
"x" gets the default weight. -/
theorem rafMapping_contents_witness : getRafScore ['x'] = 1 / 10 :=
  rafMapping_contents.2.2.2.2.1 ['x'] (by with_unfolding_all decide)

/-- Claim C2, counterexample: a present-but-unreadable resource (any read
error other than `FileNotFoundError`) makes the constructor raise instead
of completing with an empty table. -/
theorem scorerInit_unreadable_raises :
    scorerInit ReadResult.readError = Except.error () ∧
    scorerInit ReadResult.readError ≠ Except.ok [] := by
  exact ⟨rfl, by simp [scorerInit]⟩

/-- Claim C2, amended: an absent resource (`FileNotFoundError`) is swallowed
by the constructor, leaving the reference table empty; any other read error
propagates out of the constructor, and the module-level handler then leaves
the scorer unset rather than empty-tabled. -/
theorem scorerInit_behaviour :
    scorerInit ReadResult.fileNotFound = Except.ok [] ∧
    moduleScorer ReadResult.readError = none ∧
    (∀ lines, scorerInit (ReadResult.ok lines) =
      Except.ok (loadConditions lines)) :=
  ⟨rfl, rfl, fun _ => rfl⟩

/-- Claim C4: the age-band score of the scorer is exactly 5 below 30
(negative ages included), 10 on [30,45), 15 on [45,60), 18 on [60,75), and
20 from 75 on. -/
theorem ageBand_cases (a : ℤ) :
    (a < 30 → ageScoreFor a = 5) ∧
    (30 ≤ a ∧ a < 45 → ageScoreFor a = 10) ∧
    (45 ≤ a ∧ a < 60 → ageScoreFor a = 15) ∧
    (60 ≤ a ∧ a < 75 → ageScoreFor a = 18) ∧
    (75 ≤ a → ageScoreFor a = 20) ∧
    (a < 0 → ageScoreFor a = 5) := by
  refine ⟨fun h => ?_, fun h => ?_, fun h => ?_, fun h => ?_, fun h => ?_,
    fun h => ?_⟩ <;>
    · unfold ageScoreFor
      split_ifs <;> first | rfl | (exfalso; omega)

/-- Witness for `ageBand_cases` at ages 50 and -5. -/
theorem ageBand_cases_witness : ageScoreFor 50 = 15 ∧ ageScoreFor (-5) = 5 :=
  ⟨(ageBand_cases 50).2.2.1 (by norm_num),
   (ageBand_cases (-5)).2.2.2.2.2 (by norm_num)⟩

/-- Claim C9: with an empty condition-name list the score equals the
age-band score rounded to one decimal place (the rounding is the identity
on the five band values), regardless of table contents. -/
theorem score_empty_names (tbl : List CondEntry) (age : ℤ) :
    calculateMedicalScore tbl [] age = pyRound1 (ageScoreFor age) ∧
    pyRound1 (ageScoreFor age) = ageScoreFor age := by
  constructor
  · rfl
  · unfold ageScoreFor
    split_ifs <;> with_unfolding_all decide

/-! ### Lemmas about `listMax` -/

theorem le_foldl_max (l : List ℚ) (b : ℚ) : b ≤ l.foldl max b := by
  induction l generalizing b with
  | nil => simp
  | cons a t ih => exact le_trans (le_max_left b a) (ih (max b a))

theorem le_foldl_max_of_mem {l : List ℚ} {x : ℚ} (hx : x ∈ l) (b : ℚ) :
    x ≤ l.foldl max b := by
  induction l generalizing b with
  | nil => cases hx
  | cons a t ih =>
    rcases List.mem_cons.mp hx with h | h
    · subst h
      exact le_trans (le_max_right b x) (le_foldl_max t (max b x))
    · exact ih h (max b a)

theorem foldl_max_eq_or_mem (l : List ℚ) (b : ℚ) :
    l.foldl max b = b ∨ l.foldl max b ∈ l := by
  induction l generalizing b with
  | nil => left; rfl
  | cons a t ih =>
    rcases ih (max b a) with h | h
    · rcases max_choice b a with hm | hm
      · left; rw [List.foldl_cons, h, hm]
      · right; rw [List.foldl_cons, h, hm]; exact List.mem_cons_self a t
    · right; exact List.mem_cons_of_mem a h

theorem le_listMax {l : List ℚ} {x : ℚ} (hx : x ∈ l) : x ≤ listMax l :=
  le_foldl_max_of_mem hx (l.headD 0)

theorem listMax_mem {l : List ℚ} (h : l ≠ []) : listMax l ∈ l := by
  rcases foldl_max_eq_or_mem l (l.headD 0) with he | hm
  · rw [listMax, he]
    cases l with
    | nil => exact absurd rfl h
    | cons a t => exact List.mem_cons_self a t
  · exact hm

theorem listMax_le {l : List ℚ} {c : ℚ} (h : l ≠ []) (hc : ∀ x ∈ l, x ≤ c) :
    listMax l ≤ c :=
  hc _ (listMax_mem h)

theorem listMax_append_left {l₁ l₂ : List ℚ} (h : l₁ ≠ []) :
    listMax l₁ ≤ listMax (l₁ ++ l₂) :=
  le_listMax (List.mem_append_left l₂ (listMax_mem h))

/-! ### Claim theorems: score formula and loader row acceptance -/

/-- Claim C3: whenever the aggregated match collection is non-empty, the
score is `round1(age band + min(max weight * 100, 80))`; in particular with
the one-entry table {"E11" → ("Diabetes Mellitus", 0.40)},
`score(["diabetes"], 50) = 55.0`. -/
theorem score_formula :
    (∀ (tbl : List CondEntry) (names : List (List Char)) (age : ℤ),
      findConditionByName tbl names ≠ [] →
      calculateMedicalScore tbl names age =
        pyRound1 (ageScoreFor age +
          min (listMax (findConditionByName tbl names) * 100) 80)) ∧
    calculateMedicalScore tblE11 ["diabetes".data] 50 = 55 := by
  constructor
  · intro tbl names age h
    unfold calculateMedicalScore
    simp only [if_neg h]
  · with_unfolding_all decide

/-- Witness for `score_formula` on the one-entry example table. -/
theorem score_formula_witness :
    calculateMedicalScore tblE11 ["diabetes".data] 50 =
      pyRound1 (ageScoreFor 50 +
        min (listMax (findConditionByName tblE11 ["diabetes".data]) * 100) 80) :=
  score_formula.1 tblE11 ["diabetes".data] 50 (by with_unfolding_all decide)

/-- Claim C6: a row is folded into the table iff it splits into more than 7
fields with fields 0 and 1 non-empty; the 8-field example row with HCC "1"
yields weight 0.80, the empty-HCC row yields 0.1, and a 6-field row is
skipped. -/
theorem loader_row_acceptance :
    (∀ (tbl : List CondEntry) (line : List Char),
      ¬(7 < (parseCsvLine (pyStrip line)).length ∧
          (parseCsvLine (pyStrip line)).getD 0 [] ≠ [] ∧
          (parseCsvLine (pyStrip line)).getD 1 [] ≠ []) →
      loadRow tbl line = tbl) ∧
    (∀ (tbl : List CondEntry) (line : List Char),
      (7 < (parseCsvLine (pyStrip line)).length ∧
          (parseCsvLine (pyStrip line)).getD 0 [] ≠ [] ∧
          (parseCsvLine (pyStrip line)).getD 1 [] ≠ []) →
      loadRow tbl line = dictInsert tbl
        ⟨pyStrip (((parseCsvLine (pyStrip line)).getD 0 []).filter
            (fun c => c != '"')),
          pyStrip (((parseCsvLine (pyStrip line)).getD 1 []).filter
            (fun c => c != '"')),
          getRafScore (if 6 < (parseCsvLine (pyStrip line)).length then
            pyStrip ((parseCsvLine (pyStrip line)).getD 6 []) else [])⟩) ∧
    loadConditions ["HCC header".data,
        "\"A01\",\"Some Disease\",\"\",\"\",\"\",\"\",\"1\",\"\"".data] =
      [⟨"A01".data, "Some Disease".data, 4 / 5⟩] ∧
    loadConditions ["HCC header".data,
        "\"B02\",\"Other Disease\",\"\",\"\",\"\",\"\",\"\",\"\"".data] =
      [⟨"B02".data, "Other Disease".data, 1 / 10⟩] ∧
    loadConditions ["HCC header".data,
        "\"A01\",\"Some Disease\",\"\",\"\",\"\",\"\"".data] = [] := by
  refine ⟨?_, ?_, ?_, ?_, ?_⟩
  · intro tbl line h
    unfold loadRow
    simp only [if_neg h]
  · intro tbl line h
    unfold loadRow
    simp only [if_pos h]
  · with_unfolding_all decide
  · with_unfolding_all decide
  · with_unfolding_all decide

/-- Witness for `loader_row_acceptance`: a 6-field row is rejected, and the
8-field example row is inserted. -/
theorem loader_row_acceptance_witness :
    loadRow [] ("\"A01\",\"Some Disease\",\"\",\"\",\"\",\"\"".data) = [] ∧
    loadRow [] ("\"A01\",\"Some Disease\",\"\",\"\",\"\",\"\",\"1\",\"\"".data) =
      dictInsert []
        ⟨pyStrip (((parseCsvLine (pyStrip
            ("\"A01\",\"Some Disease\",\"\",\"\",\"\",\"\",\"1\",\"\"".data))).getD 0 []).filter
            (fun c => c != '"')),
          pyStrip (((parseCsvLine (pyStrip
            ("\"A01\",\"Some Disease\",\"\",\"\",\"\",\"\",\"1\",\"\"".data))).getD 1 []).filter
            (fun c => c != '"')),
          getRafScore (if 6 < (parseCsvLine (pyStrip
              ("\"A01\",\"Some Disease\",\"\",\"\",\"\",\"\",\"1\",\"\"".data))).length then
            pyStrip ((parseCsvLine (pyStrip
              ("\"A01\",\"Some Disease\",\"\",\"\",\"\",\"\",\"1\",\"\"".data))).getD 6 [])
            else [])⟩ :=
  ⟨loader_row_acceptance.1 [] _ (by with_unfolding_all decide),
   loader_row_acceptance.2.1 [] _ (by with_unfolding_all decide)⟩

/-! ### Weight provenance lemmas -/

theorem ageScoreFor_bounds (a : ℤ) :
    (5 : ℚ) ≤ ageScoreFor a ∧ ageScoreFor a ≤ 20 := by
  unfold ageScoreFor
  split_ifs <;> norm_num

theorem rafMappingList_bounds :
    ∀ p ∈ rafMappingList, (1 / 4 : ℚ) ≤ p.2 ∧ p.2 ≤ 4 / 5 := by
  with_unfolding_all decide

theorem getRafScore_bounds (s : List Char) :
    (1 / 10 : ℚ) ≤ getRafScore s ∧ getRafScore s ≤ 4 / 5 := by
  unfold getRafScore
  split_ifs with h
  · norm_num
  · cases hp : pyParseInt s with
    | none => norm_num
    | some n =>
      cases hl : rafLookup n with
      | none => simp only [hl, Option.getD_none]; norm_num
      | some v =>
        simp only [hl, Option.getD_some]
        have hmem : ∃ p ∈ rafMappingList, p.2 = v := by
          unfold rafLookup at hl
          cases hf : rafMappingList.find? (fun p => p.1 == n) with
          | none => rw [hf] at hl; simp at hl
          | some p =>
            rw [hf] at hl
            simp only [Option.map_some'] at hl
            exact ⟨p, List.mem_of_find?_eq_some hf, Option.some.inj hl⟩
        obtain ⟨p, hpmem, hpv⟩ := hmem
        have hb := rafMappingList_bounds p hpmem
        rw [← hpv]
        exact ⟨by linarith [hb.1], hb.2⟩

theorem mem_dictInsert {tbl : List CondEntry} {e x : CondEntry}
    (hx : x ∈ dictInsert tbl e) : x ∈ tbl ∨ x = e := by
  unfold dictInsert at hx
  split_ifs at hx with h
  · obtain ⟨y, hy, hxy⟩ := List.mem_map.mp hx
    by_cases hc : y.code = e.code
    · right; rw [← hxy, if_pos hc]
    · left; rw [← hxy, if_neg hc]; exact hy
  · rcases List.mem_append.mp hx with h1 | h1
    · left; exact h1
    · right; simpa using h1

theorem loadRow_weight_bounds {tbl : List CondEntry} {line : List Char}
    (h : ∀ x ∈ tbl, (1 / 10 : ℚ) ≤ x.raf_score ∧ x.raf_score ≤ 4 / 5) :
    ∀ x ∈ loadRow tbl line,
      (1 / 10 : ℚ) ≤ x.raf_score ∧ x.raf_score ≤ 4 / 5 := by
  intro x hx
  simp only [loadRow] at hx
  split_ifs at hx with hc hc2
  · rcases mem_dictInsert hx with h1 | h1
    · exact h x h1
    · subst h1; exact getRafScore_bounds _
  · rcases mem_dictInsert hx with h1 | h1
    · exact h x h1
    · subst h1; exact getRafScore_bounds _
  · exact h x hx

theorem foldl_loadRow_weight_bounds (rows : List (List Char))
    (init : List CondEntry)
    (h : ∀ x ∈ init, (1 / 10 : ℚ) ≤ x.raf_score ∧ x.raf_score ≤ 4 / 5) :
    ∀ x ∈ rows.foldl loadRow init,
      (1 / 10 : ℚ) ≤ x.raf_score ∧ x.raf_score ≤ 4 / 5 := by
  induction rows generalizing init with
  | nil => exact h
  | cons r t ih => exact ih _ (loadRow_weight_bounds h)

theorem loadConditions_weight_bounds (lines : List (List Char)) :
    ∀ x ∈ loadConditions lines,
      (1 / 10 : ℚ) ≤ x.raf_score ∧ x.raf_score ≤ 4 / 5 := by
  intro x hx
  exact foldl_loadRow_weight_bounds _ [] (by simp) x hx

theorem mem_scoredSorted {tbl : List CondEntry} {name : List Char}
    {m : ℚ × ℚ} (hm : m ∈ scoredSorted tbl name) :
    ∃ e ∈ tbl, m.1 = e.raf_score ∧
      m.2 = fuzzyMatchScore name e.description ∧ (3 / 4 : ℚ) ≤ m.2 := by
  simp only [scoredSorted] at hm
  rw [List.mem_mergeSort] at hm
  obtain ⟨e, he, hme⟩ := List.mem_filterMap.mp hm
  split_ifs at hme with hge
  · simp only [Option.some.injEq] at hme
    refine ⟨e, he, ?_, ?_, ?_⟩
    · rw [← hme]
    · rw [← hme]
    · rw [← hme]; exact hge

theorem mem_findCondition {tbl : List CondEntry} {names : List (List Char)}
    {w : ℚ} (hw : w ∈ findConditionByName tbl names) :
    ∃ name ∈ names, ∃ e ∈ tbl, w = e.raf_score ∧
      (3 / 4 : ℚ) ≤ fuzzyMatchScore name e.description := by
  unfold findConditionByName at hw
  obtain ⟨name, hname, hw2⟩ := List.mem_flatMap.mp hw
  obtain ⟨m, hm, hm1⟩ := List.mem_map.mp hw2
  have hm2 : m ∈ scoredSorted tbl name := List.take_subset 5 _ hm
  obtain ⟨e, he, h1, h2, h3⟩ := mem_scoredSorted hm2
  rw [h2] at h3
  exact ⟨name, hname, e, he, by rw [← hm1, h1], h3⟩

theorem findCondition_weight_bounds {lines : List (List Char)}
    {names : List (List Char)} {w : ℚ}
    (hw : w ∈ findConditionByName (loadConditions lines) names) :
    (1 / 10 : ℚ) ≤ w ∧ w ≤ 4 / 5 := by
  obtain ⟨name, _, e, he, hwe, _⟩ := mem_findCondition hw
  rw [hwe]
  exact loadConditions_weight_bounds lines e he

theorem calculateMedicalScore_eq (tbl : List CondEntry)
    (ns : List (List Char)) (age : ℤ) :
    calculateMedicalScore tbl ns age =
      scoreOfMatched age (findConditionByName tbl ns) := rfl

theorem findCondition_append (tbl : List CondEntry)
    (ns : List (List Char)) (n : List Char) :
    findConditionByName tbl (ns ++ [n]) =
      findConditionByName tbl ns ++ findConditionByName tbl [n] := by
  unfold findConditionByName
  rw [List.flatMap_append]

/-! ### Claim theorems: bounds, monotonicity, invariance -/

/-- Claim C7: for every loader-produced table, age and list of condition
names, the composite score lies in [5, 100]. -/
theorem score_bounds (lines : List (List Char))
    (names : List (List Char)) (age : ℤ) :
    5 ≤ calculateMedicalScore (loadConditions lines) names age ∧
      calculateMedicalScore (loadConditions lines) names age ≤ 100 := by
  have hage := ageScoreFor_bounds age
  have h5 : pyRound1 (5 : ℚ) = 5 := by with_unfolding_all decide
  have h20 : pyRound1 (20 : ℚ) = 20 := by with_unfolding_all decide
  have h100 : pyRound1 (100 : ℚ) = 100 := by with_unfolding_all decide
  rw [calculateMedicalScore_eq]
  unfold scoreOfMatched
  split_ifs with hm
  · constructor
    · rw [← h5]; exact pyRound1_mono hage.1
    · calc pyRound1 (ageScoreFor age) ≤ pyRound1 20 := pyRound1_mono hage.2
        _ = 20 := h20
        _ ≤ 100 := by norm_num
  · have hmem : listMax (findConditionByName (loadConditions lines) names) ∈
        findConditionByName (loadConditions lines) names := listMax_mem hm
    have hmax := findCondition_weight_bounds hmem
    have hcs1 : (10 : ℚ) ≤
        min (listMax (findConditionByName (loadConditions lines) names) * 100) 80 :=
      le_min (by linarith [hmax.1]) (by norm_num)
    have hcs2 : min (listMax (findConditionByName (loadConditions lines) names) * 100) 80
        ≤ 80 := min_le_right _ _
    constructor
    · calc (5 : ℚ) = pyRound1 5 := h5.symm
        _ ≤ _ := pyRound1_mono (by linarith)
    · calc pyRound1 _ ≤ pyRound1 100 := pyRound1_mono (by linarith)
        _ = 100 := h100

theorem scoreOfMatched_append_mono (age : ℤ) (m1 mb : List ℚ)
    (hnn : ∀ x ∈ mb, (0 : ℚ) ≤ x) :
    scoreOfMatched age m1 ≤ scoreOfMatched age (m1 ++ mb) := by
  by_cases h1 : m1 = []
  · subst h1
    simp only [List.nil_append]
    by_cases hb : mb = []
    · subst hb; exact le_refl _
    · unfold scoreOfMatched
      rw [if_pos rfl, if_neg hb]
      apply pyRound1_mono
      have h0 : (0 : ℚ) ≤ min (listMax mb * 100) 80 :=
        le_min (by nlinarith [hnn _ (listMax_mem hb)]) (by norm_num)
      linarith
  · have h2 : m1 ++ mb ≠ [] := by simp [h1]
    unfold scoreOfMatched
    rw [if_neg h1, if_neg h2]
    apply pyRound1_mono
    have hle : listMax m1 ≤ listMax (m1 ++ mb) := listMax_append_left h1
    have := min_le_min (mul_le_mul_of_nonneg_right hle (by norm_num : (0:ℚ) ≤ 100))
      (le_refl (80 : ℚ))
    linarith

/-- Claim C8: appending a condition name never decreases the score, for
every loader-produced table. -/
theorem score_monotone_append (lines : List (List Char))
    (ns : List (List Char)) (n : List Char) (age : ℤ) :
    calculateMedicalScore (loadConditions lines) ns age ≤
      calculateMedicalScore (loadConditions lines) (ns ++ [n]) age := by
  rw [calculateMedicalScore_eq, calculateMedicalScore_eq, findCondition_append]
  apply scoreOfMatched_append_mono
  intro x hx
  linarith [(findCondition_weight_bounds hx).1]

theorem scoreOfMatched_congr {age : ℤ} {m1 m2 : List ℚ}
    (hiff : m1 = [] ↔ m2 = []) (hmax : m1 ≠ [] → listMax m1 = listMax m2) :
    scoreOfMatched age m1 = scoreOfMatched age m2 := by
  unfold scoreOfMatched
  by_cases h : m1 = []
  · rw [if_pos h, if_pos (hiff.mp h)]
  · rw [if_neg h, if_neg (fun h2 => h (hiff.mpr h2)), hmax h]

/-- Claim C10: the score is invariant under permutation of the
condition-name list and under appending a name already present. -/
theorem score_perm_dup_invariant (tbl : List CondEntry) (age : ℤ) :
    (∀ ns₁ ns₂ : List (List Char), ns₁.Perm ns₂ →
      calculateMedicalScore tbl ns₁ age = calculateMedicalScore tbl ns₂ age) ∧
    (∀ (ns : List (List Char)) (n : List Char), n ∈ ns →
      calculateMedicalScore tbl (ns ++ [n]) age =
        calculateMedicalScore tbl ns age) := by
  constructor
  · intro ns₁ ns₂ hperm
    rw [calculateMedicalScore_eq, calculateMedicalScore_eq]
    have hp : (findConditionByName tbl ns₁).Perm (findConditionByName tbl ns₂) :=
      hperm.flatMap_right _
    apply scoreOfMatched_congr
    · constructor
      · intro h; rw [h] at hp; exact hp.symm.eq_nil
      · intro h; rw [h] at hp; exact hp.eq_nil
    · intro h1
      have h2 : findConditionByName tbl ns₂ ≠ [] := by
        intro h2; rw [h2] at hp; exact h1 hp.eq_nil
      exact le_antisymm
        (le_listMax (hp.mem_iff.mp (listMax_mem h1)))
        (le_listMax (hp.mem_iff.mpr (listMax_mem h2)))
  · intro ns n hn
    rw [calculateMedicalScore_eq, calculateMedicalScore_eq, findCondition_append]
    have hsub : ∀ x ∈ findConditionByName tbl [n],
        x ∈ findConditionByName tbl ns := by
      intro x hx
      unfold findConditionByName at hx ⊢
      rw [List.mem_flatMap]
      refine ⟨n, hn, ?_⟩
      simpa [List.flatMap_cons] using hx
    apply scoreOfMatched_congr
    · constructor
      · intro h
        exact (List.append_eq_nil.mp h).1
      · intro h
        have hb : findConditionByName tbl [n] = [] := by
          rw [List.eq_nil_iff_forall_not_mem]
          intro x hx
          have := hsub x hx
          rw [h] at this
          exact absurd this (List.not_mem_nil x)
        rw [h, hb]
        rfl
    · intro h1
      have hm1 : findConditionByName tbl ns ≠ [] := by
        intro h
        apply h1
        have hb : findConditionByName tbl [n] = [] := by
          rw [List.eq_nil_iff_forall_not_mem]
          intro x hx
          have hx2 := hsub x hx
          rw [h] at hx2
          exact (List.not_mem_nil x) hx2
        rw [h, hb]
        rfl
      refine le_antisymm ?_ (listMax_append_left hm1)
      apply listMax_le h1
      intro x hx
      rcases List.mem_append.mp hx with h | h
      · exact le_listMax h
      · exact le_listMax (hsub x h)

theorem foldl_max_flatMap {α : Type} (ws : List α) (f : α → List ℚ) (b : ℚ) :
    (ws.flatMap f).foldl max b =
      ws.foldl (fun acc w => (f w).foldl max acc) b := by
  induction ws generalizing b with
  | nil => rfl
  | cons w t ih => rw [List.flatMap_cons, List.foldl_append, ih, List.foldl_cons]

/-- Claim C5: similarity is 1.0 on a lower-cased substring hit and otherwise
the maximum pairwise word-level SequenceMatcher ratio; only entries with
similarity ≥ 0.75 are kept, sorted by similarity descending, at most 5 per
name; "diabetis" scores ≥ 0.75 against "Diabetes Mellitus" and is accepted,
while "broken arm" scores < 0.75 and is rejected. -/
theorem fuzzy_matching_spec :
    (∀ name desc : List Char, strIn (pyLower name) (pyLower desc) = true →
      fuzzyMatchScore name desc = 1) ∧
    (∀ name desc : List Char, strIn (pyLower name) (pyLower desc) = false →
      fuzzyMatchScore name desc = spec_maxPairRatio name desc) ∧
    (∀ (tbl : List CondEntry) (name : List Char),
      (findConditionByName tbl [name]).length ≤ 5) ∧
    (∀ (tbl : List CondEntry) (name : List Char) (w : ℚ),
      w ∈ findConditionByName tbl [name] →
      ∃ e ∈ tbl, w = e.raf_score ∧
        (3 / 4 : ℚ) ≤ fuzzyMatchScore name e.description) ∧
    (∀ (tbl : List CondEntry) (name : List Char),
      (scoredSorted tbl name).Pairwise (fun x y => y.2 ≤ x.2)) ∧
    ((3 / 4 : ℚ) ≤ fuzzyMatchScore "diabetis".data "Diabetes Mellitus".data ∧
      findConditionByName tblE11 ["diabetis".data] = [2 / 5]) ∧
    (fuzzyMatchScore "broken arm".data "Diabetes Mellitus".data < 3 / 4 ∧
      findConditionByName tblE11 ["broken arm".data] = []) := by
  refine ⟨?_, ?_, ?_, ?_, ?_, ?_, ?_⟩
  · intro name desc h
    simp only [fuzzyMatchScore, h, if_true]
  · intro name desc h
    simp only [fuzzyMatchScore, spec_maxPairRatio, h, Bool.false_eq_true,
      if_false]
    rw [foldl_max_flatMap]
    simp only [List.foldl_map]
  · intro tbl name
    unfold findConditionByName
    simp only [List.flatMap_cons, List.flatMap_nil, List.append_nil,
      List.length_map]
    exact List.length_take_le 5 _
  · intro tbl name w hw
    obtain ⟨name2, hname2, e, he, hwe, hfz⟩ := mem_findCondition hw
    rw [List.mem_singleton] at hname2
    subst hname2
    exact ⟨e, he, hwe, hfz⟩
  · intro tbl name
    unfold scoredSorted
    have h := @List.sorted_mergeSort (ℚ × ℚ)
      (fun x y => decide (y.2 ≤ x.2))
      (fun a b c hab hbc => by
        simp only [decide_eq_true_eq] at hab hbc ⊢
        exact le_trans hbc hab)
      (fun a b => by
        simp only [Bool.or_eq_true, decide_eq_true_eq]
        exact le_total b.2 a.2)
      (tbl.filterMap (fun e =>
        let ms := fuzzyMatchScore name e.description
        if (3 / 4 : ℚ) ≤ ms then some (e.raf_score, ms) else none))
    exact h.imp (fun hb => of_decide_eq_true hb)
  · exact ⟨by with_unfolding_all decide, by with_unfolding_all decide⟩
  · exact ⟨by with_unfolding_all decide, by with_unfolding_all decide⟩

/-- Witness for `fuzzy_matching_spec`: substring hit at score 1, and the
accepted fuzzy match of the misspelt "diabetis". -/
theorem fuzzy_matching_spec_witness :
    fuzzyMatchScore "diabetes".data "Diabetes Mellitus".data = 1 ∧
    (∃ e ∈ tblE11, (2 / 5 : ℚ) = e.raf_score ∧
      (3 / 4 : ℚ) ≤ fuzzyMatchScore "diabetis".data e.description) :=
  ⟨fuzzy_matching_spec.1 _ _ (by with_unfolding_all decide),
   fuzzy_matching_spec.2.2.2.1 tblE11 "diabetis".data (2 / 5)
     (by with_unfolding_all decide)⟩

/-- Witness for `score_perm_dup_invariant` on concrete inputs. -/
theorem score_perm_dup_invariant_witness :
    calculateMedicalScore tblE11 ["diabetes".data, "flu".data] 50 =
      calculateMedicalScore tblE11 ["flu".data, "diabetes".data] 50 ∧
    calculateMedicalScore tblE11 (["diabetes".data] ++ ["diabetes".data]) 50 =
      calculateMedicalScore tblE11 ["diabetes".data] 50 :=
  ⟨(score_perm_dup_invariant tblE11 50).1 _ _ (by with_unfolding_all decide),
   (score_perm_dup_invariant tblE11 50).2 _ _ (by with_unfolding_all decide)⟩

end MedScore
